import Mathlib

/-!
# plex: input resolution and combinatorial indexing (`cmd/plex/utils.go`)

A shallow embedding of the functions of `cmd/plex/utils.go` and the properties
of them that the specification states.

Modelling conventions.
* Go `string` is Lean `String`, a sequence of code points; the library functions used here
  (`strings.HasSuffix`, `path.Join`, `filepath.Base`) work on bytes and are embedded as in
  their source, on characters: on valid UTF-8 the two readings agree.
* A Go `map[string]V` is an association list with one entry per key
  (`GoMap V`): reading a missing key gives the zero value, assignment replaces
  the entry of an existing key or adds one.  The order of the entries is an
  artefact of the model (Go maps are unordered).
* The file system is explicit: a directory walk is the sequence of entries
  `filepath.Walk` hands to its callback; `os.Mkdir` / `CopyFile` are
  operations of a file-system state; the outcome of every `os.Create`, write
  and flush of the index writers is given by an environment, and a Go panic
  is an outcome of its own.
-/

namespace Plex

/-! ## Go maps -/

/-- A Go `map[string]V`: association list, at most one entry per key. -/
abbrev GoMap (V : Type) := List (String × V)

/-- The assignment `m[k] = v`. -/
def GoMap.set {V : Type} : GoMap V → String → V → GoMap V
  | [], k, v => [(k, v)]
  | (k', v') :: t, k, v => if k' = k then (k, v) :: t else (k', v') :: GoMap.set t k v

/-- The two-result read `v, ok := m[k]`. -/
def GoMap.find? {V : Type} : GoMap V → String → Option V
  | [], _ => none
  | (k', v') :: t, k => if k' = k then some v' else GoMap.find? t k

/-- The read `m[k]` of a `map[string][]string`: a missing key reads as `nil`. -/
def GoMap.getList (m : GoMap (List String)) (k : String) : List String :=
  (m.find? k).getD []

/-- The read `m[k]` of a `map[string]string`: a missing key reads as `""`. -/
def GoMap.getStr (m : GoMap String) (k : String) : String :=
  (m.find? k).getD ""

/-- A combination row, `map[string]string`. -/
abbrev Row := GoMap String

/-! ## `createCombinations` -/

/-- The map literal `map[string]string{fieldA: valA, fieldB: valB}`: the keys are
not constants, so the second entry replaces the first when the keys are equal. -/
def mkRow (fieldA valA fieldB valB : String) : Row :=
  (GoMap.set (GoMap.set [] fieldA valA) fieldB valB)

/-- The inner loop of `createCombinations`: `for _, valB := range indexMap[fieldB]`. -/
def combineInner (fieldA fieldB valA : String) (bs : List String) (combinations : List Row) :
    List Row :=
  bs.foldl (fun acc valB => acc ++ [mkRow fieldA valA fieldB valB]) combinations

/-- `createCombinations(indexMap, fieldA, fieldB)`. -/
def createCombinations (indexMap : GoMap (List String)) (fieldA fieldB : String) : List Row :=
  (indexMap.getList fieldA).foldl
    (fun acc valA => combineInner fieldA fieldB valA (indexMap.getList fieldB) acc) []

/-! ## Strings and paths (Go standard library) -/

/-- `strings.HasSuffix(s, suffix)`:
`len(s) >= len(suffix) && s[len(s)-len(suffix):] == suffix`. -/
def HasSuffix (s suffix : String) : Bool :=
  decide (s.length ≥ suffix.length) && (s.data.drop (s.length - suffix.length) == suffix.data)

/-- The backtracking loop of `path.Clean` at a `..` element, after the first `out.w--`:
`for out.w > dotdot && out.index(out.w) != '/' { out.w-- }`.  The buffer is kept reversed;
the second argument is the byte `out.index(out.w)`. -/
def cleanBacktrack (dotdot : Nat) : List Char → Char → List Char
  | [], _ => []
  | d :: t, c => if (d :: t).length > dotdot ∧ c ≠ '/' then cleanBacktrack dotdot t d else d :: t

/-- The main loop `for r < n` of `path.Clean`.  `rest` is `path[r:]`, `out` the output buffer
(reversed, its length is `out.w`); the first argument bounds the number of iterations, each of
which consumes at least one byte of `rest`. -/
def cleanLoop (rooted : Bool) : Nat → List Char → List Char → Nat → List Char
  | 0, _, out, _ => out
  | fuel + 1, rest, out, dotdot =>
    match rest with
    | [] => out
    | c :: t =>
      if c = '/' then
        -- empty path element
        cleanLoop rooted fuel t out dotdot
      else if c = '.' ∧ (t.isEmpty ∨ t.head? = some '/') then
        -- . element
        cleanLoop rooted fuel t out dotdot
      else if c = '.' ∧ t.head? = some '.' ∧ (t.tail.isEmpty ∨ t.tail.head? = some '/') then
        -- .. element: remove to last /
        match out with
        | last :: o =>
          if out.length > dotdot then
            cleanLoop rooted fuel t.tail (cleanBacktrack dotdot o last) dotdot
          else if !rooted then
            cleanLoop rooted fuel t.tail ('.' :: '.' :: '/' :: out) (out.length + 3)
          else cleanLoop rooted fuel t.tail out dotdot
        | [] =>
          if !rooted then cleanLoop rooted fuel t.tail ['.', '.'] 2
          else cleanLoop rooted fuel t.tail out dotdot
      else
        -- real path element: add slash if needed, copy element
        let out1 := if (rooted && out.length != 1) || (!rooted && out.length != 0)
          then '/' :: out else out
        cleanLoop rooted fuel (rest.dropWhile (fun x => x != '/'))
          ((rest.takeWhile (fun x => x != '/')).reverse ++ out1) dotdot

/-- `path.Clean(path)` (also `filepath.Clean` on a system whose separator is `/`). -/
def Clean (path : String) : String :=
  if path = "" then "."
  else
    let rooted := path.data.head? = some '/'
    let out := cleanLoop rooted path.length path.data
      (if rooted then ['/'] else []) (if rooted then 1 else 0)
    if out.length = 0 then "." else ⟨out.reverse⟩

/-- `path.Join(elem...)`: the non-empty prefix-free join of the elements with `/`, cleaned;
the empty string when all elements are empty.  `filepath.Join` agrees with it on a system
whose separator is `/`. -/
def Join (elem : List String) : String :=
  if (elem.map String.length).sum = 0 then ""
  else
    Clean (elem.foldl
      (fun buf e =>
        if buf.length > 0 ∨ e ≠ "" then (if buf.length > 0 then buf ++ "/" else buf) ++ e
        else buf) "")

/-- `filepath.Base(path)` on a system whose separator is `/`: strip trailing slashes, keep the
last element; `"."` for the empty path and `"/"` for a path of slashes only. -/
def Base (path : String) : String :=
  if path = "" then "."
  else
    let stripped := (path.data.reverse.dropWhile (fun x => x == '/'))
    let last := (stripped.takeWhile (fun x => x != '/')).reverse
    if last.isEmpty then "/" else ⟨last⟩

/-- A Go `error` value; `none` is `nil`. -/
abbrev GoError := Option String

/-! ## `AppConfig` and `FindAppConfig` -/

/-- An element of `AppConfig.Inputs`. -/
structure Input where
  Field : String
  Filetypes : List String
  deriving DecidableEq, Repr

/-- The struct `AppConfig`. -/
structure AppConfig where
  App : String := ""
  Inputs : List Input := []
  Outputs : List String := []
  deriving DecidableEq, Repr

/-- A key of a JSON object as the decoder meets it: absent, present with a value the Go field
can hold, or present with a value of another JSON type. -/
inductive JsonKey (α : Type) where
  | absent : JsonKey α
  | value (v : α) : JsonKey α
  | mistyped : JsonKey α
  deriving DecidableEq, Repr

/-- The Go field after the decoder met the key: a value it can hold is stored, an absent key
and a value of another type leave the field as it was. -/
def JsonKey.store {α : Type} (k : JsonKey α) (old : α) : α :=
  match k with
  | .value v => v
  | .absent => old
  | .mistyped => old

/-- The key holds a value of a type the field cannot hold. -/
def JsonKey.isMistyped {α : Type} (k : JsonKey α) : Bool :=
  match k with
  | .mistyped => true
  | .value _ => false
  | .absent => false

/-- An element of the array `inputs` of a catalog line: a JSON object with the keys `field`
and `filetypes`. -/
structure JsonInput where
  field : JsonKey String
  filetypes : JsonKey (List String)
  deriving DecidableEq, Repr

/-- A line of the catalog as `json.Unmarshal` sees it: a JSON object, of which only the keys
`app`, `inputs` and `outputs` matter, or a text that is not valid JSON.  Not represented: a
key given twice, the value `null`, and arrays `filetypes` and `outputs` with an element that
is not a string. -/
inductive CatalogLine where
  | object (app : JsonKey String) (inputs : JsonKey (List JsonInput))
      (outputs : JsonKey (List String))
  | invalid (msg : String)
  deriving DecidableEq, Repr

/-- The decoder on one element of `inputs`: the keys present overwrite the fields of the slice
element they are decoded into. -/
def decodeInput (old : Input) (j : JsonInput) : Input :=
  { Field := j.field.store old.Field, Filetypes := j.filetypes.store old.Filetypes }

/-- The decoder on the array `inputs`: element `i` is decoded into element `i` of the slice the
field holds, a zero element when the slice is shorter, and the slice is cut to the length of
the array.  (Elements the spare capacity of the slice may still hold from earlier lines are
taken as zero.) -/
def decodeInputs : List Input → List JsonInput → List Input
  | _, [] => []
  | [], j :: js => decodeInput { Field := "", Filetypes := [] } j :: decodeInputs [] js
  | o :: os, j :: js => decodeInput o j :: decodeInputs os js

/-- Some key of the line holds a value of a type its field cannot hold. -/
def hasTypeError (app : JsonKey String) (inputs : JsonKey (List JsonInput))
    (outputs : JsonKey (List String)) : Bool :=
  app.isMistyped || inputs.isMistyped || outputs.isMistyped ||
    (match inputs with
     | .value js => js.any (fun j => j.field.isMistyped || j.filetypes.isMistyped)
     | .absent => false
     | .mistyped => false)

/-- `json.Unmarshal([]byte(line), &appConfig)`: the keys present in the object overwrite the
fields of the struct they are decoded into, the other fields keep their value; a value of the
wrong type is skipped, the rest is decoded all the same and a type error is returned; a text
that is not valid JSON is rejected before anything is stored. -/
def unmarshal (line : CatalogLine) (appConfig : AppConfig) : AppConfig × GoError :=
  match line with
  | .invalid msg => (appConfig, some msg)
  | .object app inputs outputs =>
    ({ App := app.store appConfig.App,
       Inputs :=
         match inputs with
         | .value js => decodeInputs appConfig.Inputs js
         | .absent => appConfig.Inputs
         | .mistyped => appConfig.Inputs,
       Outputs := outputs.store appConfig.Outputs },
     if hasTypeError app inputs outputs then some "json: cannot unmarshal" else none)

/-- The loop `for scanner.Scan()` of `FindAppConfig` and the `return appConfig, err` after
it; `appConfig` is the one variable every line is decoded into. -/
def findAppConfigLoop (app : String) : List CatalogLine → AppConfig → AppConfig × GoError
  | [], appConfig => (appConfig, none)
  | line :: lines, appConfig =>
    match unmarshal line appConfig with
    | (appConfig', some err) => (appConfig', some err)
    | (appConfig', none) =>
      if appConfig'.App = app then (appConfig', none)
      else findAppConfigLoop app lines appConfig'

/-- `FindAppConfig(app, appConfigsFilePath)`; the second argument is what `os.Open` and the
scanner give for the path: an error, or the lines of the file. -/
def FindAppConfig (app : String) (file : Except String (List CatalogLine)) :
    AppConfig × GoError :=
  match file with
  | .error err => ({}, some err)
  | .ok lines => findAppConfigLoop app lines {}

/-! ## `searchDirectoryPath` -/

/-- A directory tree: a file, or a directory with its named children in the order
`filepath.Walk` reads them (sorted by name). -/
inductive FsNode where
  | file : FsNode
  | dir : List (String × FsNode) → FsNode

/-- One call of the callback of `filepath.Walk`: the path, `info.IsDir()`, and the error. -/
structure WalkEntry where
  path : String
  isDir : Bool
  err : GoError := none
  deriving DecidableEq, Repr

mutual
/-- The calls `filepath.Walk` makes on a readable tree rooted at `path`: the node itself, then
each child under `filepath.Join(path, name)`, depth first. -/
def walk (path : String) : FsNode → List WalkEntry
  | .file => [{ path := path, isDir := false }]
  | .dir children => { path := path, isDir := true } :: walkChildren path children
/-- The loop `for _, name := range names` of `filepath.Walk`. -/
def walkChildren (path : String) : List (String × FsNode) → List WalkEntry
  | [] => []
  | (name, node) :: rest => walk (Join [path, name]) node ++ walkChildren path rest
end

/-- The loop `for _, filetype := range input.Filetypes` with its `strings.HasSuffix` test. -/
def matchFiletypes (path : String) (filetypes : List String) (files : List String) :
    List String :=
  filetypes.foldl (fun files filetype =>
    if HasSuffix path filetype then files ++ [path] else files) files

/-- The loop `for _, input := range appConfig.Inputs` of the callback. -/
def matchInputs (appConfig : AppConfig) (path : String) (files : List String) : List String :=
  appConfig.Inputs.foldl (fun files input => matchFiletypes path input.Filetypes files) files

/-- The variables the callback closes over. -/
structure SearchState where
  layers : Int
  files : List String
  deriving DecidableEq, Repr

/-- The callback of `searchDirectoryPath` on one entry: the new state and the error it
returns to `filepath.Walk`. -/
def visit (appConfig : AppConfig) (st : SearchState) (e : WalkEntry) : SearchState × GoError :=
  match e.err with
  | some err => (st, some err)
  | none =>
    if e.isDir then
      if st.layers > 0 then
        ({ st with layers := st.layers - 1 }, none)
      else
        -- keep files that match the input filetypes of the specified application
        ({ st with files := matchInputs appConfig e.path st.files }, none)
    else
      ({ st with files := matchInputs appConfig e.path st.files }, none)

/-- `filepath.Walk` driving the callback: it stops at the first error the callback returns. -/
def searchLoop (appConfig : AppConfig) : List WalkEntry → SearchState → List String × GoError
  | [], st => (st.files, none)
  | e :: es, st =>
    match visit appConfig st e with
    | (st', some err) => (st'.files, some err)
    | (st', none) => searchLoop appConfig es st'

/-- `searchDirectoryPath(directory, appConfig, layers)`; the first argument is the sequence of
entries `filepath.Walk(directory, ...)` visits. -/
def searchDirectoryPath (entries : List WalkEntry) (appConfig : AppConfig) (layers : Int) :
    List String × GoError :=
  searchLoop appConfig entries { layers := layers, files := [] }

/-! ## `createInputsDirectory` -/

/-- The file-system operations `createInputsDirectory` uses, over a state `σ`. -/
structure FileSys (σ : Type) where
  Mkdir : σ → String → σ × GoError
  CopyFile : σ → String → String → σ × GoError

/-- The loop `for _, file := range files` of `createInputsDirectory`. -/
def copyLoop {σ : Type} (fs : FileSys σ) (inputsPath : String) :
    List String → σ → List String → σ × List String × GoError
  | [], s, newFiles => (s, newFiles, none)
  | file :: files, s, newFiles =>
    match fs.CopyFile s file (Join [inputsPath, Base file]) with
    | (s', some err) => (s', newFiles, some err)
    | (s', none) => copyLoop fs inputsPath files s' (newFiles ++ [Base file])

/-- The four results of `createInputsDirectory`. -/
structure StageResult where
  id : String
  newFiles : List String
  inputsPath : String
  err : GoError
  deriving DecidableEq, Repr

/-- `createInputsDirectory(inputsBasedir, files)` on the file system `s`; `id` is the string
of the identifier `uuid.New()` draws. -/
def createInputsDirectory {σ : Type} (fs : FileSys σ) (id : String) (s : σ)
    (inputsBasedir : String) (files : List String) : σ × StageResult :=
  let inputsPath := Join [inputsBasedir, id]
  match fs.Mkdir s inputsPath with
  | (s1, some err) => (s1, { id := id, newFiles := [], inputsPath := inputsPath, err := some err })
  | (s1, none) =>
    let s2 := (fs.Mkdir s1 inputsPath).1
    match copyLoop fs inputsPath files s2 [] with
    | (s3, newFiles, err) =>
      (s3, { id := id, newFiles := newFiles, inputsPath := inputsPath, err := err })

/-! ## `createIndex`, `writeJSONL`, `writeCSV` -/

/-- The classification loops of `createIndex` for one path and one input slot. -/
def classifyFiletypes (filePath : String) (input : Input) (indexMap : GoMap (List String)) :
    GoMap (List String) :=
  input.Filetypes.foldl (fun indexMap filetype =>
    if HasSuffix filePath filetype then
      indexMap.set input.Field (indexMap.getList input.Field ++ [filePath])
    else indexMap) indexMap

/-- The classification step of `createIndex`: the three nested loops that fill `indexMap`. -/
def classify (filePaths : List String) (appConfig : AppConfig) : GoMap (List String) :=
  filePaths.foldl (fun indexMap filePath =>
    appConfig.Inputs.foldl (fun indexMap input => classifyFiletypes filePath input indexMap)
      indexMap) []

/-- The outcomes of the file operations of `writeJSONL` and `writeCSV`: of `os.Create(name)`,
of the `n`-th write to the file `name` (counted from `0`), and of the deferred
`writer.Flush()` on it. -/
structure WriteEnv where
  Create : String → GoError
  Write : String → Nat → GoError
  Flush : String → GoError

/-- The outcome of a call that can end in a Go panic. -/
inductive Outcome (α : Type) where
  | panicked (msg : String) : Outcome α
  | returned (val : α) : Outcome α
  deriving DecidableEq, Repr

/-- The loop `for _, m := range index_map` of `writeJSONL`: per row the write of the JSON
object and the write of the newline, writes number `n` and `n + 1` of the file; either
failing, the call panics.  (`json.Marshal` does not fail on a `map[string]string`.)  `lines`
are the rows whose lines are written. -/
def writeJSONLLoop (env : WriteEnv) (file : String) : List Row → Nat → List Row →
    Outcome (List Row)
  | [], _, lines => .returned lines
  | m :: rest, n, lines =>
    match env.Write file n with
    | some err => .panicked err
    | none =>
      match env.Write file (n + 1) with
      | some err => .panicked err
      | none => writeJSONLLoop env file rest (n + 2) (lines ++ [m])

/-- `writeJSONL(index_map, file)`: it panics when the file cannot be created or a write
fails; when it returns, the result is the content of the file, one row per line. -/
def writeJSONL (env : WriteEnv) (index_map : List Row) (file : String) : Outcome (List Row) :=
  match env.Create file with
  | some err => .panicked err
  | none => writeJSONLLoop env file index_map 0 []

/-- The record `writeCSV` writes for a row. -/
def csvRecord (row : Row) : List String :=
  [Join ["../inputs/", row.getStr "protein_path"], Join ["../inputs/", row.getStr "ligand"]]

/-- What a call of `writeCSV` returns and leaves behind: the two results, the records the
`csv.Writer` accepted, and whether the deferred `writer.Flush()`, whose error nobody reads,
ran without error.  The records are the content of the file when it did. -/
structure CsvResult where
  path : String
  err : GoError
  records : List (List String)
  flushed : Bool
  deriving DecidableEq, Repr

/-- The loop `for _, row := range index_map` of `writeCSV`; `n` numbers the writes. -/
def writeCSVLoop (env : WriteEnv) (file : String) : List Row → Nat → List (List String) →
    GoError × List (List String)
  | [], _, records => (none, records)
  | row :: rest, n, records =>
    match env.Write file n with
    | some err => (some err, records)
    | none => writeCSVLoop env file rest (n + 1) (records ++ [csvRecord row])

/-- `writeCSV(index_map, file)`. -/
def writeCSV (env : WriteEnv) (index_map : List Row) (file : String) : CsvResult :=
  match env.Create file with
  | some err => { path := "", err := some err, records := [], flushed := false }
  | none =>
    match env.Write file 0 with
    | some err =>
      { path := "", err := some err, records := [], flushed := (env.Flush file).isNone }
    | none =>
      match writeCSVLoop env file index_map 1 [["protein_path", "ligand"]] with
      | (some err, records) =>
        { path := "", err := some err, records := records,
          flushed := (env.Flush file).isNone }
      | (none, records) =>
        { path := file, err := none, records := records, flushed := (env.Flush file).isNone }

/-- What `createIndex` returns and what it leaves on disk: the path and the rows it returns,
the content of `index.jsonl`, and of the call of `writeCSV` the records, the error and the
outcome of the flush, none of which `createIndex` looks at. -/
structure IndexOutput where
  csvPath : String
  combinations : List Row
  jsonlPath : String
  jsonl : List Row
  csv : List (List String)
  csvErr : GoError
  csvFlushed : Bool
  deriving DecidableEq, Repr

/-- `createIndex(filePaths, appConfig, jobDirPath)`.  It panics when `appConfig.Inputs[0]` or
`appConfig.Inputs[1]` is out of range and when `writeJSONL` panics; the error of `writeCSV`
is dropped. -/
def createIndex (env : WriteEnv) (filePaths : List String) (appConfig : AppConfig)
    (jobDirPath : String) : Outcome IndexOutput :=
  let indexMap := classify filePaths appConfig
  match appConfig.Inputs[0]? with
  | none => .panicked "index out of range [0]"
  | some inputA =>
    match appConfig.Inputs[1]? with
    | none => .panicked "index out of range [1]"
    | some inputB =>
      let combinations := createCombinations indexMap inputA.Field inputB.Field
      match writeJSONL env combinations (Join [jobDirPath, "index.jsonl"]) with
      | .panicked msg => .panicked msg
      | .returned lines =>
        let csv := writeCSV env combinations (Join [jobDirPath, "index.csv"])
        .returned
          { csvPath := Join [jobDirPath, "index.csv"],
            combinations := combinations,
            jsonlPath := Join [jobDirPath, "index.jsonl"],
            jsonl := lines,
            csv := csv.records,
            csvErr := csv.err,
            csvFlushed := csv.flushed }

/-- The value an outcome returned, if it returned. -/
def Outcome.val? {α : Type} : Outcome α → Option α
  | .panicked _ => none
  | .returned v => some v

/-! ## Counting functions used in the statements -/

/-- The path ends with one of the suffixes some slot of the descriptor declares. -/
def Matches (appConfig : AppConfig) (path : String) : Prop :=
  ∃ input ∈ appConfig.Inputs, ∃ filetype ∈ input.Filetypes, HasSuffix path filetype = true

/-- The number of (slot, suffix) pairs of the descriptor whose suffix the path ends with. -/
def pairCount (appConfig : AppConfig) (path : String) : Nat :=
  (appConfig.Inputs.map (fun input => input.Filetypes.countP (HasSuffix path))).sum

/-- The number of (slot, suffix) pairs whose slot is named `field` and whose suffix the path
ends with. -/
def slotCount (inputs : List Input) (field path : String) : Nat :=
  (inputs.map (fun input =>
    if input.Field = field then input.Filetypes.countP (HasSuffix path) else 0)).sum

/-- The entries a walk hands to the callback before the first one that carries an error. -/
def visited (entries : List WalkEntry) : List WalkEntry :=
  entries.takeWhile (fun e => e.err.isNone)

/-- The file system after the copies of `files` into `inputsPath`, one after the other. -/
def copyState {σ : Type} (fs : FileSys σ) (inputsPath : String) (s : σ) (files : List String) :
    σ :=
  files.foldl (fun s file => (fs.CopyFile s file (Join [inputsPath, Base file])).1) s

/-- The error of the copy of `file` into `inputsPath` on the file system `s`. -/
def copyErr {σ : Type} (fs : FileSys σ) (inputsPath : String) (s : σ) (file : String) :
    GoError :=
  (fs.CopyFile s file (Join [inputsPath, Base file])).2

/-- The file system after the two `os.Mkdir(inputsPath, 0755)` calls of
`createInputsDirectory`. -/
def jobDirState {σ : Type} (fs : FileSys σ) (s : σ) (inputsPath : String) : σ :=
  (fs.Mkdir (fs.Mkdir s inputsPath).1 inputsPath).1

/-- What a file-system state lets one observe, the existence of a path, with the two facts
about a `CopyFile` that reports no error which the statements rely on: its destination exists
afterwards, and no path that existed is gone. -/
structure Observed {σ : Type} (fs : FileSys σ) where
  fileExists : σ → String → Bool
  copy_creates : ∀ (s : σ) (src dst : String), (fs.CopyFile s src dst).2 = none →
    fileExists (fs.CopyFile s src dst).1 dst = true
  copy_keeps : ∀ (s : σ) (src dst p : String), (fs.CopyFile s src dst).2 = none →
    fileExists s p = true → fileExists (fs.CopyFile s src dst).1 p = true

/-! ## Sample data -/

/-- The buckets of the scenario of the specification. -/
def scenarioBuckets : GoMap (List String) :=
  [("protein", ["a.pdb", "b.pdb"]), ("ligand", ["x.sdf"])]

/-- The descriptor of the scenario of the specification. -/
def scenarioConfig : AppConfig :=
  { App := "diffdock",
    Inputs := [{ Field := "protein", Filetypes := [".pdb"] },
               { Field := "ligand", Filetypes := [".sdf"] }],
    Outputs := ["best_docked"] }

/-- A descriptor whose first slot declares two suffixes that overlap and whose other two
slots share a field name. -/
def overlapConfig : AppConfig :=
  { App := "docking",
    Inputs := [{ Field := "protein", Filetypes := [".pdb", "pdb"] },
               { Field := "ligand", Filetypes := [".sdf"] },
               { Field := "ligand", Filetypes := [".mol2"] }],
    Outputs := [] }

/-- A catalog of one line, the descriptor of the scenario. -/
def scenarioCatalog : List CatalogLine :=
  [.object (.value "diffdock")
    (.value [{ field := .value "protein", filetypes := .value [".pdb"] },
             { field := .value "ligand", filetypes := .value [".sdf"] }])
    (.value ["best_docked"])]

/-- A tree with a matching file at the root and one a level deeper. -/
def scenarioTree : FsNode :=
  .dir [("a.pdb", .file), ("sub", .dir [("b.pdb", .file)])]

/-- A tree with a directory whose name ends with a declared suffix. -/
def suffixDirTree : FsNode :=
  .dir [("out.pdb", .dir [("x.sdf", .file)])]

/-- The environment in which every file operation of the index writers succeeds. -/
def okEnv : WriteEnv :=
  { Create := fun _ => none, Write := fun _ _ => none, Flush := fun _ => none }

/-- An environment without the directory `nojob`: no file can be created in it. -/
def noJobEnv : WriteEnv :=
  { Create := fun name =>
      if name = "nojob/index.jsonl" ∨ name = "nojob/index.csv" then
        some "no such file or directory"
      else none,
    Write := fun _ _ => none, Flush := fun _ => none }

/-- A file system for examples: the state lists the paths that exist; `Mkdir` fails on an
existing path, `CopyFile` fails when the source does not exist. -/
def listFs : FileSys (List String) :=
  { Mkdir := fun s p => if p ∈ s then (s, some "file exists") else (p :: s, none),
    CopyFile := fun s src dst =>
      if src ∈ s then (dst :: s, none) else (s, some "no such file") }

/-- The observation of the example file system: a path exists when the state lists it. -/
def listObs : Observed listFs :=
  { fileExists := fun s p => decide (p ∈ s),
    copy_creates := by
      intro s src dst h
      by_cases hsrc : src ∈ s
      · simp [listFs, hsrc]
      · simp [listFs, hsrc] at h,
    copy_keeps := by
      intro s src dst p _ hp
      by_cases hsrc : src ∈ s
      · simp only [decide_eq_true_eq] at hp
        simp [listFs, hsrc, hp]
      · simpa [listFs, hsrc] using hp }

/-! ## Lemmas on `createCombinations` -/

theorem combineInner_eq (fieldA fieldB valA : String) (bs : List String) (acc : List Row) :
    combineInner fieldA fieldB valA bs acc = acc ++ bs.map (mkRow fieldA valA fieldB) := by
  unfold combineInner
  induction bs generalizing acc with
  | nil => simp
  | cons b bs ih => simp [List.foldl_cons, ih]

theorem combineOuter_eq (fieldA fieldB : String) (as bs : List String) (acc : List Row) :
    as.foldl (fun acc valA => combineInner fieldA fieldB valA bs acc) acc
      = acc ++ as.flatMap (fun valA => bs.map (mkRow fieldA valA fieldB)) := by
  induction as generalizing acc with
  | nil => simp
  | cons a as ih =>
    rw [List.foldl_cons, ih, combineInner_eq, List.flatMap_cons, List.append_assoc]

theorem createCombinations_eq (indexMap : GoMap (List String)) (fieldA fieldB : String) :
    createCombinations indexMap fieldA fieldB
      = (indexMap.getList fieldA).flatMap
          (fun valA => (indexMap.getList fieldB).map (mkRow fieldA valA fieldB)) := by
  unfold createCombinations
  rw [combineOuter_eq]
  simp

theorem length_flatMap_map_const {α β γ : Type} (as : List α) (bs : List β) (f : α → β → γ) :
    (as.flatMap (fun a => bs.map (f a))).length = as.length * bs.length := by
  induction as with
  | nil => simp
  | cons a as ih => simp [List.flatMap_cons, ih, Nat.succ_mul, Nat.add_comm]

theorem getElem?_flatMap_map {α β γ : Type} (as : List α) (bs : List β) (f : α → β → γ)
    (i j : Nat) (hi : i < as.length) (hj : j < bs.length) :
    (as.flatMap (fun a => bs.map (f a)))[i * bs.length + j]?
      = some (f (as.get ⟨i, hi⟩) (bs.get ⟨j, hj⟩)) := by
  induction as generalizing i with
  | nil => simp at hi
  | cons a as ih =>
    cases i with
    | zero =>
      simp only [List.flatMap_cons, Nat.zero_mul, Nat.zero_add]
      rw [List.getElem?_append_left (by simpa using hj)]
      simp [hj]
    | succ i =>
      have hi' : i < as.length := by simpa using hi
      simp only [List.flatMap_cons]
      rw [List.getElem?_append_right (by simp [Nat.succ_mul]; omega)]
      have : (i + 1) * bs.length + j - (List.map (f a) bs).length = i * bs.length + j := by
        simp [Nat.succ_mul]; omega
      rw [this, ih i hi']
      simp

/-- C1: `createCombinations` returns exactly `len(indexMap[fieldA]) * len(indexMap[fieldB])`
rows, for every map and every pair of field names; when either bucket is empty or absent
the result is the empty sequence. -/
theorem createCombinations_length (indexMap : GoMap (List String)) (fieldA fieldB : String) :
    (createCombinations indexMap fieldA fieldB).length
        = (indexMap.getList fieldA).length * (indexMap.getList fieldB).length
      ∧ ((indexMap.getList fieldA = [] ∨ indexMap.getList fieldB = []) →
          createCombinations indexMap fieldA fieldB = [])
      ∧ ((indexMap.find? fieldA = none ∨ indexMap.find? fieldB = none) →
          createCombinations indexMap fieldA fieldB = []) := by
  have hlen : (createCombinations indexMap fieldA fieldB).length
        = (indexMap.getList fieldA).length * (indexMap.getList fieldB).length := by
    rw [createCombinations_eq, length_flatMap_map_const]
  have hempty : (indexMap.getList fieldA = [] ∨ indexMap.getList fieldB = []) →
      createCombinations indexMap fieldA fieldB = [] := by
    intro h
    apply List.eq_nil_of_length_eq_zero
    rw [hlen]
    rcases h with h | h <;> simp [h]
  refine ⟨hlen, hempty, ?_⟩
  intro h
  apply hempty
  rcases h with h | h
  · left; simp [GoMap.getList, h]
  · right; simp [GoMap.getList, h]

/-- C2: for distinct field names the row at position `i * len(B) + j` of
`createCombinations` is the two-key mapping `{fieldA: A[i], fieldB: B[j]}`, where
`A = indexMap[fieldA]` and `B = indexMap[fieldB]`: `fieldA` is the outer loop, `fieldB` the
inner loop, and bucket order is preserved. -/
theorem createCombinations_row (indexMap : GoMap (List String)) (fieldA fieldB : String)
    (hne : fieldA ≠ fieldB) (i j : Nat)
    (hi : i < (indexMap.getList fieldA).length) (hj : j < (indexMap.getList fieldB).length) :
    (createCombinations indexMap fieldA fieldB)[i * (indexMap.getList fieldB).length + j]?
      = some [(fieldA, (indexMap.getList fieldA).get ⟨i, hi⟩),
              (fieldB, (indexMap.getList fieldB).get ⟨j, hj⟩)] := by
  rw [createCombinations_eq, getElem?_flatMap_map _ _ _ i j hi hj]
  simp [mkRow, GoMap.set, hne]

/-- Witness of C2 on the buckets `protein = [a.pdb, b.pdb]`, `ligand = [x.sdf]`: the second
row is `{protein: b.pdb, ligand: x.sdf}` and the whole result is the two rows of the scenario. -/
theorem createCombinations_row_witness :
    (createCombinations scenarioBuckets "protein" "ligand")[1 * 1 + 0]?
        = some [("protein", "b.pdb"), ("ligand", "x.sdf")]
      ∧ createCombinations scenarioBuckets "protein" "ligand"
        = [[("protein", "a.pdb"), ("ligand", "x.sdf")],
           [("protein", "b.pdb"), ("ligand", "x.sdf")]] :=
  ⟨createCombinations_row scenarioBuckets "protein" "ligand" (by decide) 1 0
      (by decide) (by decide), by decide⟩

/-- Witness of C1 on the buckets of the scenario: two rows for `protein` and `ligand`, none
for the absent field `zinc`. -/
theorem createCombinations_length_witness :
    (createCombinations scenarioBuckets "protein" "ligand").length = 2 * 1
      ∧ scenarioBuckets.find? "zinc" = none
      ∧ createCombinations scenarioBuckets "zinc" "ligand" = [] :=
  ⟨(createCombinations_length scenarioBuckets "protein" "ligand").1, by decide,
    (createCombinations_length scenarioBuckets "zinc" "ligand").2.2 (Or.inl (by decide))⟩


/-! ## Lemmas on Go maps -/

theorem GoMap.find?_set_eq {V : Type} (m : GoMap V) (k : String) (v : V) :
    (m.set k v).find? k = some v := by
  induction m with
  | nil => simp [GoMap.set, GoMap.find?]
  | cons kv t ih =>
    obtain ⟨k', v'⟩ := kv
    by_cases h : k' = k
    · simp [GoMap.set, GoMap.find?, h]
    · simp [GoMap.set, GoMap.find?, h, ih]

theorem GoMap.find?_set_ne {V : Type} (m : GoMap V) (k k' : String) (v : V) (hne : k ≠ k') :
    (m.set k v).find? k' = m.find? k' := by
  induction m with
  | nil => simp [GoMap.set, GoMap.find?, hne]
  | cons kv t ih =>
    obtain ⟨k₀, v₀⟩ := kv
    by_cases h : k₀ = k
    · subst h
      simp [GoMap.set, GoMap.find?, hne]
    · simp only [GoMap.set, h, if_false, GoMap.find?, ih]

theorem GoMap.getList_set (m : GoMap (List String)) (k k' : String) (v : List String) :
    GoMap.getList (m.set k v) k' = if k = k' then v else m.getList k' := by
  by_cases h : k = k'
  · subst h
    simp [GoMap.getList, GoMap.find?_set_eq]
  · simp [GoMap.getList, GoMap.find?_set_ne _ _ _ _ h, h]

/-! ## Lemmas on the classification step -/

theorem classifyFold_getList (filePath field : String) (filetypes : List String)
    (indexMap : GoMap (List String)) (f : String) :
    GoMap.getList (filetypes.foldl (fun indexMap filetype =>
        if HasSuffix filePath filetype then
          indexMap.set field (indexMap.getList field ++ [filePath])
        else indexMap) indexMap) f
      = indexMap.getList f ++
          (if field = f then List.replicate (filetypes.countP (HasSuffix filePath)) filePath
           else []) := by
  induction filetypes generalizing indexMap with
  | nil => simp
  | cons ft fts ih =>
    rw [List.foldl_cons, ih]
    by_cases hs : HasSuffix filePath ft = true
    · by_cases hf : field = f
      · subst hf
        simp [hs, GoMap.getList_set, List.countP_cons, List.replicate_succ']
        rw [← List.replicate_succ, List.replicate_succ']
      · simp [hs, hf, GoMap.getList_set]
    · simp [hs, List.countP_cons]

theorem classifyFiletypes_getList (filePath : String) (input : Input)
    (indexMap : GoMap (List String)) (f : String) :
    (classifyFiletypes filePath input indexMap).getList f
      = indexMap.getList f ++
          (if input.Field = f then
            List.replicate (input.Filetypes.countP (HasSuffix filePath)) filePath
           else []) :=
  classifyFold_getList filePath input.Field input.Filetypes indexMap f

theorem replicate_slotCount_cons (input : Input) (inputs : List Input) (f filePath : String) :
    List.replicate (slotCount (input :: inputs) f filePath) filePath
      = (if input.Field = f then
            List.replicate (input.Filetypes.countP (HasSuffix filePath)) filePath
          else []) ++ List.replicate (slotCount inputs f filePath) filePath := by
  have hcons : slotCount (input :: inputs) f filePath
      = (if input.Field = f then input.Filetypes.countP (HasSuffix filePath) else 0)
        + slotCount inputs f filePath := by
    simp [slotCount]
  rw [hcons, List.replicate_add]
  by_cases h : input.Field = f
  · simp only [h, if_true]
  · simp only [h, if_false, List.replicate_zero]

theorem classifyInputs_getList (filePath : String) (inputs : List Input)
    (indexMap : GoMap (List String)) (f : String) :
    GoMap.getList (inputs.foldl
        (fun indexMap input => classifyFiletypes filePath input indexMap) indexMap) f
      = indexMap.getList f ++ List.replicate (slotCount inputs f filePath) filePath := by
  induction inputs generalizing indexMap with
  | nil => simp [slotCount]
  | cons input inputs ih =>
    rw [List.foldl_cons, ih, classifyFiletypes_getList, replicate_slotCount_cons,
      List.append_assoc]

theorem classifyFiles_getList (filePaths : List String) (inputs : List Input)
    (indexMap : GoMap (List String)) (f : String) :
    GoMap.getList (filePaths.foldl (fun indexMap filePath =>
        inputs.foldl (fun indexMap input => classifyFiletypes filePath input indexMap)
          indexMap) indexMap) f
      = indexMap.getList f ++
          filePaths.flatMap (fun filePath =>
            List.replicate (slotCount inputs f filePath) filePath) := by
  induction filePaths generalizing indexMap with
  | nil => simp
  | cons filePath filePaths ih =>
    rw [List.foldl_cons, ih, classifyInputs_getList, List.flatMap_cons, List.append_assoc]

/-- The bucket of a field after the classification step, in closed form. -/
theorem classify_getList (filePaths : List String) (appConfig : AppConfig) (f : String) :
    (classify filePaths appConfig).getList f
      = filePaths.flatMap (fun filePath =>
          List.replicate (slotCount appConfig.Inputs f filePath) filePath) := by
  unfold classify
  rw [classifyFiles_getList]
  simp [GoMap.getList, GoMap.find?]

theorem count_flatMap_replicate (filePaths : List String) (g : String → Nat) (p : String) :
    List.count p (filePaths.flatMap (fun filePath => List.replicate (g filePath) filePath))
      = List.count p filePaths * g p := by
  induction filePaths with
  | nil => simp
  | cons x xs ih =>
    rw [List.flatMap_cons, List.count_append, ih, List.count_replicate, List.count_cons]
    by_cases h : x = p
    · subst h; simp [Nat.add_mul, Nat.add_comm]
    · simp [h]

/-- The number of occurrences of a path in a bucket. -/
theorem classify_count (filePaths : List String) (appConfig : AppConfig) (f p : String) :
    List.count p ((classify filePaths appConfig).getList f)
      = List.count p filePaths * slotCount appConfig.Inputs f p := by
  rw [classify_getList, count_flatMap_replicate]

/-- With unique field names only the slot itself contributes to its bucket. -/
theorem slotCount_unique (inputs : List Input) (input : Input) (p : String)
    (hmem : input ∈ inputs) (huniq : (inputs.map (fun i => i.Field)).Nodup) :
    slotCount inputs input.Field p = input.Filetypes.countP (HasSuffix p) := by
  induction inputs with
  | nil => simp at hmem
  | cons x xs ih =>
    rw [List.map_cons, List.nodup_cons] at huniq
    obtain ⟨hx, hxs⟩ := huniq
    have hcons : slotCount (x :: xs) input.Field p
        = (if x.Field = input.Field then x.Filetypes.countP (HasSuffix p) else 0)
          + slotCount xs input.Field p := by
      simp [slotCount]
    rw [hcons]
    rcases List.mem_cons.mp hmem with h | h
    · subst h
      have hzero : slotCount xs input.Field p = 0 := by
        unfold slotCount
        apply List.sum_eq_zero
        intro n hn
        obtain ⟨y, hy, rfl⟩ := List.mem_map.mp hn
        have : y.Field ≠ input.Field := by
          intro heq
          exact hx (heq ▸ List.mem_map_of_mem (fun i => i.Field) hy)
        simp [this]
      simp [hzero]
    · have hne : x.Field ≠ input.Field := by
        intro heq
        exact hx (heq ▸ List.mem_map_of_mem (fun i => i.Field) h)
      simp [hne, ih h hxs]

/-- When no other slot has the field name of a slot, only the slot itself contributes to
its bucket. -/
theorem slotCount_of_count_one (inputs : List Input) (input : Input) (p : String)
    (hmem : input ∈ inputs)
    (hone : List.count input.Field (inputs.map (fun i => i.Field)) = 1) :
    slotCount inputs input.Field p = input.Filetypes.countP (HasSuffix p) := by
  induction inputs with
  | nil => simp at hmem
  | cons x xs ih =>
    have hcons : slotCount (x :: xs) input.Field p
        = (if x.Field = input.Field then x.Filetypes.countP (HasSuffix p) else 0)
          + slotCount xs input.Field p := by
      simp [slotCount]
    rw [hcons]
    rw [List.map_cons, List.count_cons] at hone
    by_cases hx : x.Field = input.Field
    · have hzero : List.count input.Field (xs.map (fun i => i.Field)) = 0 := by
        have hb : (x.Field == input.Field) = true := by simp [hx]
        rw [hb] at hone
        simpa using hone
      have hnot : ∀ y ∈ xs, y.Field ≠ input.Field := by
        intro y hy heq
        have hin : input.Field ∈ xs.map (fun i => i.Field) :=
          heq ▸ List.mem_map_of_mem (fun i => i.Field) hy
        exact (List.count_eq_zero.mp hzero) hin
      have hxeq : input = x := by
        rcases List.mem_cons.mp hmem with h | h
        · exact h
        · exact absurd rfl (hnot input h)
      have hsz : slotCount xs input.Field p = 0 := by
        unfold slotCount
        apply List.sum_eq_zero
        intro n hn
        obtain ⟨y, hy, rfl⟩ := List.mem_map.mp hn
        simp [hnot y hy]
      rw [hsz, if_pos hx, hxeq]
      simp
    · have hin : input ∈ xs := by
        rcases List.mem_cons.mp hmem with h | h
        · exact absurd (h ▸ rfl) hx
        · exact h
      have hone' : List.count input.Field (xs.map (fun i => i.Field)) = 1 := by
        simpa [hx] using hone
      rw [if_neg hx, ih hin hone']
      simp

/-- C3: in the classification step of `createIndex`, for a descriptor whose slot field names
are unique, a path occurs in the bucket of a slot's field if and only if it is in the input
list and ends with one of the slot's declared suffixes. -/
theorem classify_mem_iff (filePaths : List String) (appConfig : AppConfig) (input : Input)
    (hmem : input ∈ appConfig.Inputs)
    (huniq : (appConfig.Inputs.map (fun i => i.Field)).Nodup) (p : String) :
    p ∈ (classify filePaths appConfig).getList input.Field
      ↔ p ∈ filePaths ∧ ∃ filetype ∈ input.Filetypes, HasSuffix p filetype = true := by
  rw [← List.count_pos_iff, classify_count, slotCount_unique _ _ _ hmem huniq,
    ← List.count_pos_iff (a := p) (l := filePaths),
    ← List.countP_pos_iff (p := HasSuffix p) (l := input.Filetypes)]
  simp only [Nat.pos_iff_ne_zero, Nat.mul_ne_zero_iff]

/-- Witness of C3 on the scenario of the specification. -/
theorem classify_mem_iff_witness :
    "a.pdb" ∈ (classify ["a.pdb", "b.pdb", "x.sdf"] scenarioConfig).getList "protein"
      ↔ "a.pdb" ∈ ["a.pdb", "b.pdb", "x.sdf"]
          ∧ ∃ filetype ∈ [".pdb"], HasSuffix "a.pdb" filetype = true :=
  classify_mem_iff ["a.pdb", "b.pdb", "x.sdf"] scenarioConfig
    { Field := "protein", Filetypes := [".pdb"] } (by decide) (by decide) "a.pdb"

/-! ## Lemmas on `searchDirectoryPath` -/

theorem matchFiletypes_eq (path : String) (filetypes files : List String) :
    matchFiletypes path filetypes files
      = files ++ List.replicate (filetypes.countP (HasSuffix path)) path := by
  unfold matchFiletypes
  induction filetypes generalizing files with
  | nil => simp
  | cons ft fts ih =>
    rw [List.foldl_cons, ih]
    by_cases hs : HasSuffix path ft = true
    · simp only [hs, if_true, List.countP_cons, List.append_assoc]
      rw [Nat.add_comm, List.replicate_add]
      rfl
    · simp [hs, List.countP_cons]

theorem matchInputsFold_eq (path : String) (inputs : List Input) (files : List String) :
    inputs.foldl (fun files input => matchFiletypes path input.Filetypes files) files
      = files ++ List.replicate
          ((inputs.map (fun input => input.Filetypes.countP (HasSuffix path))).sum) path := by
  induction inputs generalizing files with
  | nil => simp
  | cons input inputs ih =>
    rw [List.foldl_cons, ih, matchFiletypes_eq, List.map_cons, List.sum_cons,
      List.replicate_add, List.append_assoc]

theorem matchInputs_eq (appConfig : AppConfig) (path : String) (files : List String) :
    matchInputs appConfig path files
      = files ++ List.replicate (pairCount appConfig path) path :=
  matchInputsFold_eq path appConfig.Inputs files

theorem matches_iff_pairCount_pos (appConfig : AppConfig) (path : String) :
    Matches appConfig path ↔ 0 < pairCount appConfig path := by
  unfold Matches pairCount
  constructor
  · rintro ⟨input, hin, ft, hft, hs⟩
    have hpos : 0 < input.Filetypes.countP (HasSuffix path) :=
      List.countP_pos_iff.mpr ⟨ft, hft, hs⟩
    have hle : input.Filetypes.countP (HasSuffix path)
        ≤ (appConfig.Inputs.map (fun input => input.Filetypes.countP (HasSuffix path))).sum :=
      List.single_le_sum (by intro x _; exact Nat.zero_le x) _
        (List.mem_map_of_mem (fun input => input.Filetypes.countP (HasSuffix path)) hin)
    omega
  · intro h
    by_contra hno
    have hz : (appConfig.Inputs.map
        (fun input => input.Filetypes.countP (HasSuffix path))).sum = 0 := by
      apply List.sum_eq_zero
      intro n hn
      obtain ⟨input, hin, rfl⟩ := List.mem_map.mp hn
      by_contra hne
      have hpos : 0 < input.Filetypes.countP (HasSuffix path) := Nat.pos_of_ne_zero hne
      obtain ⟨ft, hft, hs⟩ := List.countP_pos_iff.mp hpos
      exact hno ⟨input, hin, ft, hft, hs⟩
    omega

/-- The callback on an entry without error, in closed form. -/
theorem visit_ok (appConfig : AppConfig) (st : SearchState) (e : WalkEntry)
    (herr : e.err = none) :
    visit appConfig st e
      = if e.isDir = true ∧ st.layers > 0 then
          ({ layers := st.layers - 1, files := st.files }, none)
        else
          ({ layers := st.layers,
             files := st.files ++ List.replicate (pairCount appConfig e.path) e.path }, none) := by
  unfold visit
  rw [herr]
  simp only [matchInputs_eq]
  by_cases hdir : e.isDir = true
  · by_cases hpos : st.layers > 0
    · simp [hdir, hpos]
    · simp [hdir, hpos]
  · simp [hdir]

theorem visit_err (appConfig : AppConfig) (st : SearchState) (e : WalkEntry) (err : String)
    (herr : e.err = some err) : visit appConfig st e = (st, some err) := by
  unfold visit
  rw [herr]

/-- The list of matches only grows along the walk. -/
theorem searchLoop_mono (appConfig : AppConfig) (entries : List WalkEntry) (st : SearchState)
    (p : String) (hp : p ∈ st.files) : p ∈ (searchLoop appConfig entries st).1 := by
  induction entries generalizing st with
  | nil => simpa [searchLoop] using hp
  | cons e es ih =>
    cases herr : e.err with
    | some err => simpa [searchLoop, visit_err appConfig st e err herr] using hp
    | none =>
      rw [searchLoop, visit_ok appConfig st e herr]
      by_cases hskip : e.isDir = true ∧ st.layers > 0
      · rw [if_pos hskip]
        exact ih _ hp
      · rw [if_neg hskip]
        exact ih _ (List.mem_append_left _ hp)

/-- A file with a matching suffix, visited before any error, is in the result whatever the
value of the counter. -/
theorem searchLoop_file_mem (appConfig : AppConfig) (entries : List WalkEntry)
    (st : SearchState) (e : WalkEntry) (he : e ∈ visited entries) (hfile : e.isDir = false)
    (hmatch : Matches appConfig e.path) : e.path ∈ (searchLoop appConfig entries st).1 := by
  induction entries generalizing st with
  | nil => simp [visited] at he
  | cons x xs ih =>
    cases herr : x.err with
    | some err => simp [visited, List.takeWhile_cons, herr] at he
    | none =>
      have hx : visited (x :: xs) = x :: visited xs := by
        simp [visited, List.takeWhile_cons, herr]
      rw [hx] at he
      rw [searchLoop, visit_ok appConfig st x herr]
      rcases List.mem_cons.mp he with h | h
      · subst h
        have hskip : ¬ (e.isDir = true ∧ st.layers > 0) := by simp [hfile]
        rw [if_neg hskip]
        apply searchLoop_mono
        apply List.mem_append_right
        have hpos := (matches_iff_pairCount_pos appConfig e.path).mp hmatch
        exact List.mem_replicate.mpr ⟨by omega, rfl⟩
      · by_cases hskip : x.isDir = true ∧ st.layers > 0
        · rw [if_pos hskip]
          exact ih _ h
        · rw [if_neg hskip]
          exact ih _ h

/-- The number of occurrences of a path in the result, when every visit of it is the visit
of a file. -/
theorem searchLoop_count (appConfig : AppConfig) (entries : List WalkEntry) (st : SearchState)
    (p : String) (hfile : ∀ e ∈ visited entries, e.path = p → e.isDir = false) :
    List.count p (searchLoop appConfig entries st).1
      = List.count p st.files
        + List.count p ((visited entries).map (fun e => e.path)) * pairCount appConfig p := by
  induction entries generalizing st with
  | nil => simp [searchLoop, visited]
  | cons x xs ih =>
    cases herr : x.err with
    | some err =>
      simp [searchLoop, visit_err appConfig st x err herr, visited, List.takeWhile_cons, herr]
    | none =>
      have hx : visited (x :: xs) = x :: visited xs := by
        simp [visited, List.takeWhile_cons, herr]
      rw [hx] at hfile ⊢
      have hfile' : ∀ e ∈ visited xs, e.path = p → e.isDir = false :=
        fun e he => hfile e (List.mem_cons_of_mem _ he)
      rw [searchLoop, visit_ok appConfig st x herr]
      by_cases hskip : x.isDir = true ∧ st.layers > 0
      · rw [if_pos hskip, ih _ hfile']
        have hne : x.path ≠ p := by
          intro heq
          have := hfile x (List.mem_cons_self _ _) heq
          rw [hskip.1] at this
          exact Bool.noConfusion this
        simp [List.count_cons, hne]
      · rw [if_neg hskip, ih _ hfile']
        simp only [List.count_append, List.count_replicate, List.map_cons, List.count_cons]
        by_cases heq : x.path = p
        · subst heq
          simp [Nat.add_mul, Nat.add_assoc, Nat.add_comm]
        · simp [heq]

mutual
/-- The walk of a readable tree hands no error to the callback. -/
theorem walk_err_none (path : String) :
    ∀ (node : FsNode) (e : WalkEntry), e ∈ walk path node → e.err = none
  | .file, e, he => by
    simp only [walk, List.mem_singleton] at he
    rw [he]
  | .dir children, e, he => by
    simp only [walk, List.mem_cons] at he
    rcases he with h | h
    · rw [h]
    · exact walkChildren_err_none path children e h
/-- The walk of the children of a readable directory hands no error to the callback. -/
theorem walkChildren_err_none (path : String) :
    ∀ (children : List (String × FsNode)) (e : WalkEntry),
      e ∈ walkChildren path children → e.err = none
  | [], e, he => by simp [walkChildren] at he
  | (name, node) :: rest, e, he => by
    simp only [walkChildren, List.mem_append] at he
    rcases he with h | h
    · exact walk_err_none (Join [path, name]) node e h
    · exact walkChildren_err_none path rest e h
end

theorem visited_walk (path : String) (node : FsNode) :
    visited (walk path node) = walk path node := by
  unfold visited
  rw [List.takeWhile_eq_self_iff]
  intro e he
  simp [walk_err_none path node e he]

theorem walkChildren_mem (path name : String) (node : FsNode)
    (children : List (String × FsNode)) (hmem : (name, node) ∈ children) (e : WalkEntry)
    (he : e ∈ walk (Join [path, name]) node) : e ∈ walkChildren path children := by
  induction children with
  | nil => simp at hmem
  | cons c cs ih =>
    obtain ⟨n, nd⟩ := c
    simp only [walkChildren, List.mem_append]
    rcases List.mem_cons.mp hmem with h | h
    · left
      cases h
      exact he
    · right
      exact ih h

/-! ## `searchDirectoryPath`: the skip counter -/

/-- C4, counterexample: on the tree `data/{a.pdb, sub/b.pdb}` with `layers = 1` the file at
the root is returned together with the file one level deeper; and with the counter still at
`1` the callback matches the file `data/a.pdb`. -/
theorem searchDirectoryPath_root_file_returned :
    searchDirectoryPath (walk "data" scenarioTree) scenarioConfig 1
        = (["data/a.pdb", "data/sub/b.pdb"], none)
      ∧ ¬ ("data/a.pdb" ∉ (searchDirectoryPath (walk "data" scenarioTree) scenarioConfig 1).1)
      ∧ visit scenarioConfig { layers := 1, files := [] } { path := "data/a.pdb", isDir := false }
        = ({ layers := 1, files := ["data/a.pdb"] }, none) := by
  decide

/-- C4, amended: with `layers = 1`, on a tree whose root directly contains a file with a
matching suffix and a subdirectory holding a file with a matching suffix, both files are in
the returned list; more generally every non-directory entry with a matching suffix is matched
whatever the value of the skip counter, and a directory entry visited while the counter is
positive is not matched: it only decrements the counter. -/
theorem searchDirectoryPath_skip_counter :
    (∀ (appConfig : AppConfig) (root : String) (children sub : List (String × FsNode))
        (a d b : String),
        (a, FsNode.file) ∈ children → (d, FsNode.dir sub) ∈ children →
        (b, FsNode.file) ∈ sub →
        Matches appConfig (Join [root, a]) → Matches appConfig (Join [Join [root, d], b]) →
        Join [root, a] ∈ (searchDirectoryPath (walk root (.dir children)) appConfig 1).1
          ∧ Join [Join [root, d], b]
              ∈ (searchDirectoryPath (walk root (.dir children)) appConfig 1).1)
      ∧ (∀ (entries : List WalkEntry) (appConfig : AppConfig) (layers : Int) (e : WalkEntry),
          e ∈ visited entries → e.isDir = false → Matches appConfig e.path →
          e.path ∈ (searchDirectoryPath entries appConfig layers).1)
      ∧ (∀ (appConfig : AppConfig) (st : SearchState) (e : WalkEntry),
          e.err = none → e.isDir = true → st.layers > 0 →
          visit appConfig st e = ({ layers := st.layers - 1, files := st.files }, none)) := by
  refine ⟨?_, ?_, ?_⟩
  · intro appConfig root children sub a d b ha hd hb hma hmb
    have hwa : ({ path := Join [root, a], isDir := false } : WalkEntry)
        ∈ visited (walk root (.dir children)) := by
      rw [visited_walk, walk]
      apply List.mem_cons_of_mem
      apply walkChildren_mem root a .file children ha
      simp [walk]
    have hwb : ({ path := Join [Join [root, d], b], isDir := false } : WalkEntry)
        ∈ visited (walk root (.dir children)) := by
      rw [visited_walk, walk]
      apply List.mem_cons_of_mem
      apply walkChildren_mem root d (.dir sub) children hd
      rw [walk]
      apply List.mem_cons_of_mem
      apply walkChildren_mem (Join [root, d]) b .file sub hb
      simp [walk]
    exact ⟨searchLoop_file_mem appConfig _ _ _ hwa rfl hma,
      searchLoop_file_mem appConfig _ _ _ hwb rfl hmb⟩
  · intro entries appConfig layers e he hfile hmatch
    exact searchLoop_file_mem appConfig entries _ e he hfile hmatch
  · intro appConfig st e herr hdir hpos
    rw [visit_ok appConfig st e herr, if_pos ⟨hdir, hpos⟩]

/-- Witness of the amended C4 on the tree `data/{a.pdb, sub/b.pdb}`. -/
theorem searchDirectoryPath_skip_counter_witness :
    Matches scenarioConfig (Join ["data", "a.pdb"])
      ∧ Matches scenarioConfig (Join [Join ["data", "sub"], "b.pdb"])
      ∧ Join ["data", "a.pdb"]
          ∈ (searchDirectoryPath (walk "data" scenarioTree) scenarioConfig 1).1
      ∧ Join [Join ["data", "sub"], "b.pdb"]
          ∈ (searchDirectoryPath (walk "data" scenarioTree) scenarioConfig 1).1 :=
  have hma : Matches scenarioConfig (Join ["data", "a.pdb"]) :=
    ⟨{ Field := "protein", Filetypes := [".pdb"] }, by decide, ".pdb", by decide, by decide⟩
  have hmb : Matches scenarioConfig (Join [Join ["data", "sub"], "b.pdb"]) :=
    ⟨{ Field := "protein", Filetypes := [".pdb"] }, by decide, ".pdb", by decide, by decide⟩
  ⟨hma, hmb,
    searchDirectoryPath_skip_counter.1 scenarioConfig "data"
      [("a.pdb", .file), ("sub", .dir [("b.pdb", .file)])] [("b.pdb", .file)]
      "a.pdb" "sub" "b.pdb" (by simp) (by simp) (by simp) hma hmb⟩

/-- C5, the code at a failing input: on the tree `runs/out.pdb/x.sdf` with `layers = 1` the
directory `runs/out.pdb`, whose name ends with the declared suffix `.pdb`, is tested once the
counter is exhausted and its path is returned. -/
theorem searchDirectoryPath_returns_directory :
    walk "runs" suffixDirTree
        = [{ path := "runs", isDir := true }, { path := "runs/out.pdb", isDir := true },
           { path := "runs/out.pdb/x.sdf", isDir := false }]
      ∧ searchDirectoryPath (walk "runs" suffixDirTree) scenarioConfig 1
        = (["runs/out.pdb", "runs/out.pdb/x.sdf"], none) := by
  decide

/-! ## Duplicates through `searchDirectoryPath` and `createIndex` -/

/-- C10: when the output of `searchDirectoryPath` is fed to `createIndex` with the same
descriptor, for every path `p` the walk visits once, as a file, and every slot whose field
name no other slot of the descriptor has, the number of occurrences of `p` in the slot's
bucket is the number of (slot, suffix) pairs of the whole descriptor that `p` ends with times
the number of the slot's suffixes that `p` ends with; so `p` occurs exactly once in the bucket
only when it matches exactly one (slot, suffix) pair. -/
theorem bucket_count_multiplies (entries : List WalkEntry) (appConfig : AppConfig)
    (layers : Int) (input : Input) (p : String)
    (hmem : input ∈ appConfig.Inputs)
    (huniq : List.count input.Field (appConfig.Inputs.map (fun i => i.Field)) = 1)
    (honce : List.count p ((visited entries).map (fun e => e.path)) = 1)
    (hfile : ∀ e ∈ visited entries, e.path = p → e.isDir = false) :
    List.count p
        ((classify (searchDirectoryPath entries appConfig layers).1 appConfig).getList
          input.Field)
        = pairCount appConfig p * input.Filetypes.countP (HasSuffix p)
      ∧ (List.count p
          ((classify (searchDirectoryPath entries appConfig layers).1 appConfig).getList
            input.Field) = 1
          → pairCount appConfig p = 1) := by
  have hcount : List.count p
      ((classify (searchDirectoryPath entries appConfig layers).1 appConfig).getList
        input.Field)
      = pairCount appConfig p * input.Filetypes.countP (HasSuffix p) := by
    rw [classify_count, slotCount_of_count_one _ _ _ hmem huniq]
    unfold searchDirectoryPath
    rw [searchLoop_count appConfig entries _ p hfile, honce]
    simp
  refine ⟨hcount, ?_⟩
  intro h1
  rw [hcount] at h1
  exact Nat.eq_one_of_mul_eq_one_right h1

/-- Witness of C10 on a descriptor with overlapping suffixes, two of whose other slots share a
name: `data/a.pdb`, visited once, ends with both suffixes of the slot `protein`, so it is
returned twice by the walk and occurs `2 * 2` times in the bucket. -/
theorem bucket_count_multiplies_witness :
    List.count "data/a.pdb"
        ((classify (searchDirectoryPath (walk "data" scenarioTree) overlapConfig 1).1
          overlapConfig).getList "protein")
      = pairCount overlapConfig "data/a.pdb" * List.countP (HasSuffix "data/a.pdb") [".pdb", "pdb"]
    ∧ pairCount overlapConfig "data/a.pdb" = 2 :=
  ⟨(bucket_count_multiplies (walk "data" scenarioTree) overlapConfig 1
      { Field := "protein", Filetypes := [".pdb", "pdb"] } "data/a.pdb"
      (by decide) (by decide) (by decide) (by decide)).1, by decide⟩

/-! ## `FindAppConfig` -/

/-- C7, the code at a failing input: looked up in a catalog whose single line parses and
is the entry `diffdock`, the name `equibind` matches no entry, and `FindAppConfig` returns
the descriptor of `diffdock`, not the zero-value descriptor, with a nil error. -/
theorem FindAppConfig_no_match_returns_last :
    FindAppConfig "equibind" (.ok scenarioCatalog) = (scenarioConfig, none)
      ∧ (FindAppConfig "equibind" (.ok scenarioCatalog)).1 ≠ {}
      ∧ (FindAppConfig "equibind" (.ok scenarioCatalog)).1.App = "diffdock" := by
  decide

/-! ## `createInputsDirectory` -/

/-- The copy loop stops at the first failing copy: it has copied a prefix of the files, every
copy of the prefix succeeded in the state the previous copies left, the next copy, if there
is one, failed, and the state is the one these copies left. -/
theorem copyLoop_spec {σ : Type} (fs : FileSys σ) (dir : String) (files : List String) (s : σ)
    (acc : List String) :
    ∃ k, k ≤ files.length
      ∧ (copyLoop fs dir files s acc).2.1 = acc ++ (files.take k).map Base
      ∧ (∀ i file, i < k → files[i]? = some file →
          copyErr fs dir (copyState fs dir s (files.take i)) file = none)
      ∧ (∀ file, files[k]? = some file →
          copyErr fs dir (copyState fs dir s (files.take k)) file ≠ none)
      ∧ ((copyLoop fs dir files s acc).2.2 = none ↔ k = files.length)
      ∧ (copyLoop fs dir files s acc).1 = copyState fs dir s (files.take (k + 1)) := by
  induction files generalizing s acc with
  | nil =>
    refine ⟨0, by simp, by simp [copyLoop], by simp, by simp, by simp [copyLoop],
      by simp [copyLoop, copyState]⟩
  | cons f fs' ih =>
    cases hc : fs.CopyFile s f (Join [dir, Base f]) with
    | mk s' err =>
      cases err with
      | some e =>
        refine ⟨0, by simp, by simp [copyLoop, hc], by simp, ?_, by simp [copyLoop, hc],
          by simp [copyLoop, hc, copyState]⟩
        intro file hfile
        simp only [List.getElem?_cons_zero, Option.some.injEq] at hfile
        subst hfile
        simp [copyErr, copyState, hc]
      | none =>
        obtain ⟨k, hk, hnames, hpre, hnext, herr, hstate⟩ := ih s' (acc ++ [Base f])
        have hstep : ∀ l : List String,
            copyState fs dir s (f :: l) = copyState fs dir s' l := by
          intro l
          simp [copyState, hc]
        refine ⟨k + 1, by simpa using hk, ?_, ?_, ?_, ?_, ?_⟩
        · simp [copyLoop, hc, hnames]
        · intro i file hi hfile
          cases i with
          | zero =>
            simp only [List.getElem?_cons_zero, Option.some.injEq] at hfile
            subst hfile
            simp [copyErr, copyState, hc]
          | succ j =>
            rw [List.take_succ_cons, hstep]
            exact hpre j file (by omega) (by simpa using hfile)
        · intro file hfile
          rw [List.take_succ_cons, hstep]
          exact hnext file (by simpa using hfile)
        · simp [copyLoop, hc, herr]
        · rw [List.take_succ_cons, hstep]
          simp [copyLoop, hc, hstate]

/-- When the first `os.Mkdir` succeeds the results are those of the copy loop, run on the
file system the two `os.Mkdir` calls left. -/
theorem createInputsDirectory_of_mkdir {σ : Type} (fs : FileSys σ) (id : String) (s : σ)
    (inputsBasedir : String) (files : List String)
    (hmk : (fs.Mkdir s (Join [inputsBasedir, id])).2 = none) :
    createInputsDirectory fs id s inputsBasedir files
      = ((copyLoop fs (Join [inputsBasedir, id]) files
            (jobDirState fs s (Join [inputsBasedir, id])) []).1,
          { id := id,
            newFiles := (copyLoop fs (Join [inputsBasedir, id]) files
              (jobDirState fs s (Join [inputsBasedir, id])) []).2.1,
            inputsPath := Join [inputsBasedir, id],
            err := (copyLoop fs (Join [inputsBasedir, id]) files
              (jobDirState fs s (Join [inputsBasedir, id])) []).2.2 }) := by
  cases hm : fs.Mkdir s (Join [inputsBasedir, id]) with
  | mk s1 err =>
    rw [hm] at hmk
    simp only at hmk
    subst hmk
    have hjob : (fs.Mkdir s1 (Join [inputsBasedir, id])).1
        = jobDirState fs s (Join [inputsBasedir, id]) := by
      simp [jobDirState, hm]
    simp only [createInputsDirectory, hm, hjob]

/-- When the first `os.Mkdir` fails its error is returned. -/
theorem createInputsDirectory_of_mkdir_err {σ : Type} (fs : FileSys σ) (id : String) (s : σ)
    (inputsBasedir : String) (files : List String) (e : String)
    (hmk : (fs.Mkdir s (Join [inputsBasedir, id])).2 = some e) :
    (createInputsDirectory fs id s inputsBasedir files).2.err = some e := by
  cases hm : fs.Mkdir s (Join [inputsBasedir, id]) with
  | mk s1 err =>
    rw [hm] at hmk
    simp only at hmk
    subst hmk
    simp only [createInputsDirectory, hm]

/-- C8: when the job directory is created, `createInputsDirectory` returns the base names of
the longest prefix of the input files whose copies all succeed, in input order; the error is
non-nil exactly when some copy fails, the call stopping at the first failing copy with the
file system as the copies left it; and the job id and the path `baseDir/<id>` are returned
in both cases. -/
theorem createInputsDirectory_copies_until_failure {σ : Type} (fs : FileSys σ) (id : String) (s : σ)
    (inputsBasedir : String) (files : List String)
    (hmk : (fs.Mkdir s (Join [inputsBasedir, id])).2 = none) :
    (createInputsDirectory fs id s inputsBasedir files).2.id = id
      ∧ (createInputsDirectory fs id s inputsBasedir files).2.inputsPath
          = Join [inputsBasedir, id]
      ∧ ∃ k, k ≤ files.length
        ∧ (createInputsDirectory fs id s inputsBasedir files).2.newFiles
            = (files.take k).map Base
        ∧ (∀ i file, i < k → files[i]? = some file →
            copyErr fs (Join [inputsBasedir, id])
              (copyState fs (Join [inputsBasedir, id])
                (jobDirState fs s (Join [inputsBasedir, id])) (files.take i)) file = none)
        ∧ (∀ file, files[k]? = some file →
            copyErr fs (Join [inputsBasedir, id])
              (copyState fs (Join [inputsBasedir, id])
                (jobDirState fs s (Join [inputsBasedir, id])) (files.take k)) file ≠ none)
        ∧ ((createInputsDirectory fs id s inputsBasedir files).2.err ≠ none
            ↔ k < files.length)
        ∧ (createInputsDirectory fs id s inputsBasedir files).1
            = copyState fs (Join [inputsBasedir, id])
                (jobDirState fs s (Join [inputsBasedir, id])) (files.take (k + 1)) := by
  obtain ⟨k, hk, hnames, hpre, hnext, herr, hstate⟩ :=
    copyLoop_spec fs (Join [inputsBasedir, id]) files
      (jobDirState fs s (Join [inputsBasedir, id])) []
  rw [createInputsDirectory_of_mkdir fs id s inputsBasedir files hmk]
  refine ⟨rfl, rfl, k, hk, by simpa using hnames, hpre, hnext, ?_, hstate⟩
  simp only [ne_eq, herr]
  omega

/-- Witness of C8: of the files `data/a.pdb`, `data/gone.pdb`, `data/x.sdf`, the second does
not exist; the call returns the one base name `a.pdb` and an error. -/
theorem createInputsDirectory_copies_until_failure_witness :
    (listFs.Mkdir ["data/a.pdb", "data/x.sdf"] (Join ["in", "job-1"])).2 = none
      ∧ (createInputsDirectory listFs "job-1" ["data/a.pdb", "data/x.sdf"] "in"
          ["data/a.pdb", "data/gone.pdb", "data/x.sdf"]).2
        = { id := "job-1", newFiles := ["a.pdb"], inputsPath := "in/job-1",
            err := some "no such file" }
      ∧ ∃ k, k ≤ 3
        ∧ (createInputsDirectory listFs "job-1" ["data/a.pdb", "data/x.sdf"] "in"
            ["data/a.pdb", "data/gone.pdb", "data/x.sdf"]).2.newFiles
            = (["data/a.pdb", "data/gone.pdb", "data/x.sdf"].take k).map Base
        ∧ ((createInputsDirectory listFs "job-1" ["data/a.pdb", "data/x.sdf"] "in"
            ["data/a.pdb", "data/gone.pdb", "data/x.sdf"]).2.err ≠ none ↔ k < 3) :=
  ⟨by decide, by decide,
    match createInputsDirectory_copies_until_failure listFs "job-1" ["data/a.pdb", "data/x.sdf"] "in"
      ["data/a.pdb", "data/gone.pdb", "data/x.sdf"] (by decide) with
    | ⟨_, _, k, hk, hn, _, _, he, _⟩ => ⟨k, hk, hn, he⟩⟩
/-! ## `createIndex` -/

/-- When `writeJSONL` returns, every row has its line, in order. -/
theorem writeJSONLLoop_returned (env : WriteEnv) (file : String) (rows : List Row) (n : Nat)
    (lines out : List Row) (h : writeJSONLLoop env file rows n lines = .returned out) :
    out = lines ++ rows := by
  induction rows generalizing n lines with
  | nil =>
    simp only [writeJSONLLoop, Outcome.returned.injEq] at h
    simp [h]
  | cons m rest ih =>
    unfold writeJSONLLoop at h
    cases h1 : env.Write file n with
    | some err => simp [h1] at h
    | none =>
      cases h2 : env.Write file (n + 1) with
      | some err => simp [h1, h2] at h
      | none =>
        simp only [h1, h2] at h
        rw [ih (n + 2) (lines ++ [m]) h]
        simp

/-- When no write fails, `writeJSONL` returns. -/
theorem writeJSONLLoop_ok (env : WriteEnv) (file : String) (rows : List Row) (n : Nat)
    (lines : List Row) (hw : ∀ k, env.Write file k = none) :
    writeJSONLLoop env file rows n lines = .returned (lines ++ rows) := by
  induction rows generalizing n lines with
  | nil => simp [writeJSONLLoop]
  | cons m rest ih =>
    unfold writeJSONLLoop
    simp only [hw]
    rw [ih (n + 2) (lines ++ [m])]
    simp

theorem writeJSONL_ok (env : WriteEnv) (file : String) (rows : List Row)
    (hc : env.Create file = none) (hw : ∀ k, env.Write file k = none) :
    writeJSONL env rows file = .returned rows := by
  unfold writeJSONL
  rw [hc]
  simp only
  rw [writeJSONLLoop_ok env file rows 0 [] hw]
  simp

theorem writeJSONL_returned (env : WriteEnv) (file : String) (rows out : List Row)
    (h : writeJSONL env rows file = .returned out) : out = rows := by
  unfold writeJSONL at h
  cases hc : env.Create file with
  | some err => simp [hc] at h
  | none =>
    simp only [hc] at h
    simpa using writeJSONLLoop_returned env file rows 0 [] out h

theorem writeCSVLoop_ok (env : WriteEnv) (file : String) (rows : List Row) (n : Nat)
    (records : List (List String)) (hw : ∀ k, env.Write file k = none) :
    writeCSVLoop env file rows n records = (none, records ++ rows.map csvRecord) := by
  induction rows generalizing n records with
  | nil => simp [writeCSVLoop]
  | cons row rest ih =>
    unfold writeCSVLoop
    simp only [hw]
    rw [ih (n + 1) (records ++ [csvRecord row])]
    simp

theorem writeCSV_ok (env : WriteEnv) (file : String) (rows : List Row)
    (hc : env.Create file = none) (hw : ∀ k, env.Write file k = none) :
    writeCSV env rows file
      = { path := file, err := none,
          records := ["protein_path", "ligand"] :: rows.map csvRecord,
          flushed := (env.Flush file).isNone } := by
  unfold writeCSV
  rw [hc]
  simp only [hw]
  rw [writeCSVLoop_ok env file rows 1 _ hw]
  simp

/-- With at least two slots, and when the writes of `index.jsonl` succeed, `createIndex`
returns; its results in closed form. -/
theorem createIndex_of_two (env : WriteEnv) (filePaths : List String) (appConfig : AppConfig)
    (jobDirPath : String) (h2 : 2 ≤ appConfig.Inputs.length)
    (hjc : env.Create (Join [jobDirPath, "index.jsonl"]) = none)
    (hjw : ∀ n, env.Write (Join [jobDirPath, "index.jsonl"]) n = none) :
    ∃ inA inB, appConfig.Inputs[0]? = some inA ∧ appConfig.Inputs[1]? = some inB
      ∧ createIndex env filePaths appConfig jobDirPath
        = .returned
          { csvPath := Join [jobDirPath, "index.csv"],
            combinations :=
              createCombinations (classify filePaths appConfig) inA.Field inB.Field,
            jsonlPath := Join [jobDirPath, "index.jsonl"],
            jsonl := createCombinations (classify filePaths appConfig) inA.Field inB.Field,
            csv := (writeCSV env
              (createCombinations (classify filePaths appConfig) inA.Field inB.Field)
              (Join [jobDirPath, "index.csv"])).records,
            csvErr := (writeCSV env
              (createCombinations (classify filePaths appConfig) inA.Field inB.Field)
              (Join [jobDirPath, "index.csv"])).err,
            csvFlushed := (writeCSV env
              (createCombinations (classify filePaths appConfig) inA.Field inB.Field)
              (Join [jobDirPath, "index.csv"])).flushed } := by
  cases hin : appConfig.Inputs with
  | nil => rw [hin] at h2; simp at h2
  | cons a rest =>
    cases rest with
    | nil => rw [hin] at h2; simp at h2
    | cons b rest' =>
      refine ⟨a, b, by simp, by simp, ?_⟩
      simp only [createIndex, hin, List.getElem?_cons_zero, List.getElem?_cons_succ,
        writeJSONL_ok env _ _ hjc hjw]

/-- When `createIndex` returns, the rows it returns are the combinations of the buckets of
the first two slots, and they are the content of `index.jsonl`. -/
theorem createIndex_returned (env : WriteEnv) (filePaths : List String)
    (appConfig : AppConfig) (jobDirPath : String) (out : IndexOutput)
    (h : createIndex env filePaths appConfig jobDirPath = .returned out) :
    ∃ inA inB, appConfig.Inputs[0]? = some inA ∧ appConfig.Inputs[1]? = some inB
      ∧ out.combinations
          = createCombinations (classify filePaths appConfig) inA.Field inB.Field
      ∧ out.jsonl = out.combinations := by
  unfold createIndex at h
  cases hA : appConfig.Inputs[0]? with
  | none => simp [hA] at h
  | some inA =>
    cases hB : appConfig.Inputs[1]? with
    | none => simp [hA, hB] at h
    | some inB =>
      simp only [hA, hB] at h
      cases hj : writeJSONL env
          (createCombinations (classify filePaths appConfig) inA.Field inB.Field)
          (Join [jobDirPath, "index.jsonl"]) with
      | panicked msg => simp [hj] at h
      | returned lines =>
        simp only [hj, Outcome.returned.injEq] at h
        have hl := writeJSONL_returned env _ _ _ hj
        refine ⟨inA, inB, rfl, rfl, ?_, ?_⟩
        · rw [← h]
        · rw [← h]; exact hl

theorem mem_mkRow (fieldA valA fieldB valB : String) (kv : String × String)
    (hkv : kv ∈ mkRow fieldA valA fieldB valB) : kv.2 = valA ∨ kv.2 = valB := by
  by_cases h : fieldA = fieldB
  · simp [mkRow, GoMap.set, h] at hkv
    right; rw [hkv]
  · simp [mkRow, GoMap.set, h] at hkv
    rcases hkv with h1 | h1
    · left; rw [h1]
    · right; rw [h1]

theorem mem_createCombinations (indexMap : GoMap (List String)) (fieldA fieldB : String)
    (row : Row) (hrow : row ∈ createCombinations indexMap fieldA fieldB) :
    ∃ valA ∈ indexMap.getList fieldA, ∃ valB ∈ indexMap.getList fieldB,
      row = mkRow fieldA valA fieldB valB := by
  rw [createCombinations_eq] at hrow
  obtain ⟨valA, hA, hrow⟩ := List.mem_flatMap.mp hrow
  obtain ⟨valB, hB, hrow⟩ := List.mem_map.mp hrow
  exact ⟨valA, hA, valB, hB, hrow.symm⟩

/-- Every path of a bucket is one of the classified paths. -/
theorem classify_subset (filePaths : List String) (appConfig : AppConfig) (f p : String)
    (hp : p ∈ (classify filePaths appConfig).getList f) : p ∈ filePaths := by
  rw [classify_getList] at hp
  obtain ⟨filePath, hfp, hrep⟩ := List.mem_flatMap.mp hp
  rw [(List.mem_replicate.mp hrep).2]
  exact hfp

/-- The failure path of `createIndex`: when `index.jsonl` cannot be created, `writeJSONL`
panics and nothing is returned. -/
theorem createIndex_panics_without_directory :
    createIndex noJobEnv ["a.pdb", "x.sdf"] scenarioConfig "nojob"
      = .panicked "no such file or directory" := by
  decide

/-- C6, counterexample: every write succeeding, for the descriptor with the slots `protein`
and `ligand` and the files `a.pdb`, `x.sdf`, the JSONL holds the row
`{protein: a.pdb, ligand: x.sdf}` while the CSV record is `../inputs, ../inputs/x.sdf`: its
first value is not the row's `protein` value under the `../inputs/` prefix,
`../inputs/a.pdb`. -/
theorem createIndex_csv_not_from_fields :
    (createIndex okEnv ["a.pdb", "x.sdf"] scenarioConfig "job").val?.map (fun out => out.jsonl)
        = some [[("protein", "a.pdb"), ("ligand", "x.sdf")]]
      ∧ (createIndex okEnv ["a.pdb", "x.sdf"] scenarioConfig "job").val?.map
          (fun out => (out.csv, out.csvErr, out.csvFlushed))
        = some ([["protein_path", "ligand"], ["../inputs", "../inputs/x.sdf"]], none, true)
      ∧ [Join ["../inputs/", "a.pdb"], Join ["../inputs/", "x.sdf"]]
        = ["../inputs/a.pdb", "../inputs/x.sdf"]
      ∧ (createIndex okEnv ["a.pdb", "x.sdf"] scenarioConfig "job").val?.map
          (fun out => out.csv.tail)
        ≠ (createIndex okEnv ["a.pdb", "x.sdf"] scenarioConfig "job").val?.map (fun out =>
            out.jsonl.map (fun row =>
              [Join ["../inputs/", row.getStr "protein"],
               Join ["../inputs/", row.getStr "ligand"]])) := by
  decide

/-- C6, amended: for every descriptor with at least two slots and every file list, when the
creation of, the writes to and the flush of the two index files succeed, `createIndex`
returns and the CSV it wrote has, after its header, exactly one record per row written to
the JSONL, in the same order, and the `i`-th record's two values are
`path.Join("../inputs/", row["protein_path"])` and `path.Join("../inputs/", row["ligand"])`
for the `i`-th row, a key the row lacks reading as the empty string; these are the row's
values of the first two fields under the `../inputs/` prefix when the fields are named
`protein_path` and `ligand`. -/
theorem createIndex_csv_records (env : WriteEnv) (filePaths : List String)
    (appConfig : AppConfig) (jobDirPath : String) (h2 : 2 ≤ appConfig.Inputs.length)
    (hjc : env.Create (Join [jobDirPath, "index.jsonl"]) = none)
    (hjw : ∀ n, env.Write (Join [jobDirPath, "index.jsonl"]) n = none)
    (hcc : env.Create (Join [jobDirPath, "index.csv"]) = none)
    (hcw : ∀ n, env.Write (Join [jobDirPath, "index.csv"]) n = none)
    (hcf : env.Flush (Join [jobDirPath, "index.csv"]) = none) :
    ∃ out, createIndex env filePaths appConfig jobDirPath = .returned out
      ∧ out.jsonl = out.combinations
      ∧ out.csvErr = none ∧ out.csvFlushed = true
      ∧ out.csv.head? = some ["protein_path", "ligand"]
      ∧ out.csv.tail.length = out.jsonl.length
      ∧ (∀ (i : Nat) (row : Row), out.jsonl[i]? = some row →
          out.csv.tail[i]? = some [Join ["../inputs/", row.getStr "protein_path"],
                                   Join ["../inputs/", row.getStr "ligand"]])
      ∧ (∀ inA inB, appConfig.Inputs[0]? = some inA → appConfig.Inputs[1]? = some inB →
          inA.Field = "protein_path" → inB.Field = "ligand" →
          ∀ (i : Nat) (row : Row), out.jsonl[i]? = some row →
            out.csv.tail[i]? = some [Join ["../inputs/", row.getStr inA.Field],
                                     Join ["../inputs/", row.getStr inB.Field]]) := by
  obtain ⟨inA, inB, _, _, hout⟩ :=
    createIndex_of_two env filePaths appConfig jobDirPath h2 hjc hjw
  have hrec : ∀ (rows : List Row) (i : Nat) (row : Row), rows[i]? = some row →
      (rows.map csvRecord)[i]? = some [Join ["../inputs/", row.getStr "protein_path"],
                                       Join ["../inputs/", row.getStr "ligand"]] := by
    intro rows i row h
    rw [List.getElem?_map, h]
    rfl
  rw [writeCSV_ok env _ _ hcc hcw, hcf] at hout
  refine ⟨_, hout, rfl, rfl, rfl, rfl, by simp, ?_, ?_⟩
  · intro i row h
    exact hrec _ i row h
  · intro inA' inB' _ _ hfA hfB i row h
    rw [hfA, hfB]
    exact hrec _ i row h

/-- Witness of the amended C6 on the scenario of the specification, every write succeeding. -/
theorem createIndex_csv_records_witness :
    2 ≤ scenarioConfig.Inputs.length
      ∧ ∃ out, createIndex okEnv ["a.pdb", "b.pdb", "x.sdf"] scenarioConfig "job"
          = .returned out
        ∧ out.csv.tail.length = out.jsonl.length
        ∧ (∀ (i : Nat) (row : Row), out.jsonl[i]? = some row →
            out.csv.tail[i]? = some [Join ["../inputs/", row.getStr "protein_path"],
                                     Join ["../inputs/", row.getStr "ligand"]]) :=
  ⟨by decide,
    match createIndex_csv_records okEnv ["a.pdb", "b.pdb", "x.sdf"] scenarioConfig "job"
      (by decide) rfl (fun _ => rfl) rfl (fun _ => rfl) rfl with
    | ⟨out, hout, _, _, _, _, hlen, hrec, _⟩ => ⟨out, hout, hlen, hrec⟩⟩

/-! ## Staging and indexing the same files -/

/-- A copy loop that ends without error removes no path. -/
theorem copyLoop_keeps {σ : Type} (fs : FileSys σ) (obs : Observed fs) (dir : String)
    (files : List String) (s : σ) (acc : List String) (q : String)
    (herr : (copyLoop fs dir files s acc).2.2 = none) (hq : obs.fileExists s q = true) :
    obs.fileExists (copyLoop fs dir files s acc).1 q = true := by
  induction files generalizing s acc with
  | nil => simpa [copyLoop] using hq
  | cons f rest ih =>
    cases hc : fs.CopyFile s f (Join [dir, Base f]) with
    | mk s' err =>
      cases err with
      | some e => simp [copyLoop, hc] at herr
      | none =>
        have hcopy : (fs.CopyFile s f (Join [dir, Base f])).2 = none := by rw [hc]
        have hkeep := obs.copy_keeps s f (Join [dir, Base f]) q hcopy hq
        rw [hc] at hkeep
        simp only [copyLoop, hc] at herr ⊢
        exact ih s' _ herr hkeep

/-- After a copy loop that ends without error every file exists under its base name in the
directory copied into. -/
theorem copyLoop_exists {σ : Type} (fs : FileSys σ) (obs : Observed fs) (dir : String)
    (files : List String) (s : σ) (acc : List String)
    (herr : (copyLoop fs dir files s acc).2.2 = none) (p : String) (hp : p ∈ files) :
    obs.fileExists (copyLoop fs dir files s acc).1 (Join [dir, Base p]) = true := by
  induction files generalizing s acc with
  | nil => simp at hp
  | cons f rest ih =>
    cases hc : fs.CopyFile s f (Join [dir, Base f]) with
    | mk s' err =>
      cases err with
      | some e => simp [copyLoop, hc] at herr
      | none =>
        have hcopy : (fs.CopyFile s f (Join [dir, Base f])).2 = none := by rw [hc]
        have hnew := obs.copy_creates s f (Join [dir, Base f]) hcopy
        rw [hc] at hnew
        have herr' : (copyLoop fs dir rest s' (acc ++ [Base f])).2.2 = none := by
          simpa [copyLoop, hc] using herr
        have hstep : copyLoop fs dir (f :: rest) s acc
            = copyLoop fs dir rest s' (acc ++ [Base f]) := by
          simp [copyLoop, hc]
        rw [hstep]
        rcases List.mem_cons.mp hp with h | h
        · rw [h]
          exact copyLoop_keeps fs obs dir rest s' _ _ herr' hnew
        · exact ih s' _ herr' h

/-- A copy loop that ends without error returns the base names of all the files. -/
theorem copyLoop_names {σ : Type} (fs : FileSys σ) (dir : String) (files : List String)
    (s : σ) (acc : List String) (herr : (copyLoop fs dir files s acc).2.2 = none) :
    (copyLoop fs dir files s acc).2.1 = acc ++ files.map Base := by
  obtain ⟨k, _, hnames, _, _, hiff, _⟩ := copyLoop_spec fs dir files s acc
  have hk : k = files.length := hiff.mp herr
  rw [hnames, hk, List.take_length]

/-- C9: for a descriptor with at least two slots, if `createInputsDirectory(baseDir, files)`
succeeds, then for every row `createIndex` produces over the same files, and it produces
them whenever the writes of `index.jsonl` succeed, every path value of the row is a member
of `files`, its base name is among the copied file names returned, and a file of that base
name exists in the workspace directory in the file system the call left. -/
theorem staged_rows_copied {σ : Type} (fs : FileSys σ) (obs : Observed fs) (env : WriteEnv)
    (id : String) (s : σ) (inputsBasedir : String) (files : List String)
    (appConfig : AppConfig) (jobDirPath : String) (h2 : 2 ≤ appConfig.Inputs.length)
    (hok : (createInputsDirectory fs id s inputsBasedir files).2.err = none) :
    ((env.Create (Join [jobDirPath, "index.jsonl"]) = none
        ∧ ∀ n, env.Write (Join [jobDirPath, "index.jsonl"]) n = none) →
      ∃ out, createIndex env files appConfig jobDirPath = .returned out)
    ∧ ∀ out, createIndex env files appConfig jobDirPath = .returned out →
        ∀ row ∈ out.combinations, ∀ kv ∈ row,
          kv.2 ∈ files
          ∧ Base kv.2 ∈ (createInputsDirectory fs id s inputsBasedir files).2.newFiles
          ∧ obs.fileExists (createInputsDirectory fs id s inputsBasedir files).1
              (Join [(createInputsDirectory fs id s inputsBasedir files).2.inputsPath,
                     Base kv.2]) = true := by
  refine ⟨?_, ?_⟩
  · rintro ⟨hjc, hjw⟩
    obtain ⟨inA, inB, _, _, hout⟩ :=
      createIndex_of_two env files appConfig jobDirPath h2 hjc hjw
    exact ⟨_, hout⟩
  · intro out hout row hrow kv hkv
    obtain ⟨inA, inB, _, _, hcomb, _⟩ :=
      createIndex_returned env files appConfig jobDirPath out hout
    have hmk : (fs.Mkdir s (Join [inputsBasedir, id])).2 = none := by
      cases hm : (fs.Mkdir s (Join [inputsBasedir, id])).2 with
      | none => rfl
      | some e =>
        rw [createInputsDirectory_of_mkdir_err fs id s inputsBasedir files e hm] at hok
        exact Option.noConfusion hok
    rw [createInputsDirectory_of_mkdir fs id s inputsBasedir files hmk] at hok ⊢
    simp only at hok ⊢
    rw [hcomb] at hrow
    obtain ⟨valA, hA, valB, hB, hrw⟩ := mem_createCombinations _ _ _ row hrow
    rw [hrw] at hkv
    have hmem : kv.2 ∈ files := by
      rcases mem_mkRow _ _ _ _ kv hkv with h | h
      · rw [h]; exact classify_subset files appConfig _ _ hA
      · rw [h]; exact classify_subset files appConfig _ _ hB
    refine ⟨hmem, ?_, ?_⟩
    · rw [copyLoop_names fs _ files _ [] hok]
      exact List.mem_map_of_mem Base hmem
    · exact copyLoop_exists fs obs _ files _ [] hok kv.2 hmem

/-- Witness of C9: the files of the scenario, found under `data`, staged into `in/job-1` and
indexed; `in/job-1/a.pdb` and `in/job-1/x.sdf` exist afterwards. -/
theorem staged_rows_copied_witness :
    2 ≤ scenarioConfig.Inputs.length
      ∧ createInputsDirectory listFs "job-1" ["data/a.pdb", "data/x.sdf"] "in"
          ["data/a.pdb", "data/x.sdf"]
        = (["in/job-1/x.sdf", "in/job-1/a.pdb", "in/job-1", "data/a.pdb", "data/x.sdf"],
            { id := "job-1", newFiles := ["a.pdb", "x.sdf"], inputsPath := "in/job-1",
              err := none })
      ∧ (createIndex okEnv ["data/a.pdb", "data/x.sdf"] scenarioConfig "job").val?.map
          (fun out => out.combinations)
        = some [[("protein", "data/a.pdb"), ("ligand", "data/x.sdf")]]
      ∧ ∀ out, createIndex okEnv ["data/a.pdb", "data/x.sdf"] scenarioConfig "job"
          = .returned out →
        ∀ row ∈ out.combinations, ∀ kv ∈ row,
          kv.2 ∈ ["data/a.pdb", "data/x.sdf"]
          ∧ Base kv.2 ∈ (createInputsDirectory listFs "job-1" ["data/a.pdb", "data/x.sdf"]
                "in" ["data/a.pdb", "data/x.sdf"]).2.newFiles
          ∧ listObs.fileExists
              (createInputsDirectory listFs "job-1" ["data/a.pdb", "data/x.sdf"] "in"
                ["data/a.pdb", "data/x.sdf"]).1
              (Join [(createInputsDirectory listFs "job-1" ["data/a.pdb", "data/x.sdf"] "in"
                ["data/a.pdb", "data/x.sdf"]).2.inputsPath, Base kv.2]) = true :=
  ⟨by decide, by decide, by decide,
    (staged_rows_copied listFs listObs okEnv "job-1" ["data/a.pdb", "data/x.sdf"] "in"
      ["data/a.pdb", "data/x.sdf"] scenarioConfig "job" (by decide) (by decide)).2⟩

end Plex
